import Mathlib

/-!
Verification of the DICOM-Viewer repository (`src/Viewer/DiCOM_Viewer.py`).

The Python program is shallowly embedded here:

* a DICOM file read by `pydicom.dcmread` becomes a `Dataset` record (a file
  whose read raises becomes `none`); tag defaults (`ds.get(tag, default)`)
  are resolved at record-construction time, so e.g. `zPos` already holds the
  value `ds.get('ImagePositionPatient', [0,0,0])[2]`;
* numpy float arithmetic is modelled over `ℚ` (exact-real semantics);
* raw pixel samples are `ℤ` and `astype(np.int16)` is the two's-complement
  wrap `wrap16`;
* the numpy assignment `volume[i] = hu_array` follows numpy broadcasting:
  it succeeds exactly when each dimension of `hu_array` equals the target
  dimension or equals 1 (`broadcastTo`); a failed assignment raises, which
  the loader reports as a load error;
* `DICOMDataLoader` becomes `LoaderState` with the same four fields, and
  the Tkinter app `DICOMViewerApp` becomes `AppState`; GUI-only actions
  (labels, scales, redraws) carry no model state;
* Python exceptions that `load_series` catches are modelled by a Bool flag
  (`true` = completed normally) returned next to the mutated state; the
  user-facing message strings are abstracted to the success flag that
  `load_series` returns alongside them.
-/

/-- A successfully parsed DICOM dataset (`pydicom.dcmread` result), with the
tag accesses of the source resolved to fields. -/
structure Dataset where
  /-- `ds.get('SeriesInstanceUID')`; `none` when the tag is absent. -/
  seriesUID : Option Nat
  /-- `ds.get('ImagePositionPatient', [0, 0, 0])[2]`. -/
  zPos : ℚ
  /-- whether `'PixelData' in ds` holds. -/
  hasPixelData : Bool
  /-- `ds.get('Rows', 0)`. -/
  rowsTag : Nat
  /-- `ds.get('Columns', 0)`. -/
  colsTag : Nat
  /-- `ds.get('SliceThickness', 1.0)`. -/
  sliceThickness : ℚ
  /-- `ds.get('PixelSpacing', [1.0, 1.0])`: (row spacing, column spacing). -/
  pixelSpacing : ℚ × ℚ
  /-- `ds.get('RescaleSlope', 1.0)`. -/
  rescaleSlope : ℚ
  /-- `ds.get('RescaleIntercept', 0.0)`. -/
  rescaleIntercept : ℚ
  /-- `ds.pixel_array`: the decoded raw sample matrix. -/
  pix : List (List ℤ)
deriving DecidableEq

/-- The `header_info` dictionary once `_process_data` has populated it.
`minHU`/`maxHU` are `Option` because the `MinHU`/`MaxHU` keys are only
written at the very end of a successful `_process_data`. -/
structure Header where
  rows : Nat
  cols : Nat
  sliceThickness : ℚ
  pixelSpacing : ℚ × ℚ
  numSlices : Nat
  rescaleIntercept : ℚ
  rescaleSlope : ℚ
  minHU : Option ℚ
  maxHU : Option ℚ
deriving DecidableEq

/-- The mutable state of `DICOMDataLoader`.  An empty `header_info` dict is
`none`. -/
structure LoaderState where
  series_data : List Dataset
  header_info : Option Header
  is_loaded : Bool
  full_hu_volume : Option (List (List (List ℚ)))
deriving DecidableEq

/-- `DICOMDataLoader.__init__`. -/
def initLoader : LoaderState :=
  { series_data := [], header_info := none, is_loaded := false,
    full_hu_volume := none }

/-- `pixel_array.astype(np.int16)`: two's-complement wrap into
`[-32768, 32767]`. -/
def wrap16 (z : ℤ) : ℤ :=
  (z + 32768) % 65536 - 32768

/-- `pixel_array.astype(np.int16) * R_slope + R_int`, elementwise. -/
def huMatrix (slope intercept : ℚ) (pix : List (List ℤ)) : List (List ℚ) :=
  pix.map (fun row => row.map (fun z => ((wrap16 z : ℤ) : ℚ) * slope + intercept))

/-- Broadcast one row of a source matrix to `cols` entries, per numpy rules:
the source extent must equal `cols` or equal 1. -/
def broadcastRow (cols : Nat) (row : List ℚ) : Option (List ℚ) :=
  if row.length = cols then some row
  else if row.length = 1 then some (List.replicate cols (row.getD 0 0))
  else none

/-- Broadcast every row of a source matrix (the column dimension check of
numpy). -/
def broadcastRows (cols : Nat) : List (List ℚ) → Option (List (List ℚ))
  | [] => some []
  | r :: rs =>
    match broadcastRow cols r, broadcastRows cols rs with
    | some r2, some rs2 => some (r2 :: rs2)
    | _, _ => none

/-- numpy semantics of the assignment `volume[i] = m` where `volume[i]` has
shape `(rows, cols)`: each dimension of `m` must equal the target dimension
or equal 1 (then it is replicated); otherwise the assignment raises
(`none`). -/
def broadcastTo (rows cols : Nat) (m : List (List ℚ)) : Option (List (List ℚ)) :=
  match broadcastRows cols m with
  | none => none
  | some m2 =>
    if m2.length = rows then some m2
    else if m2.length = 1 then some (List.replicate rows (m2.getD 0 []))
    else none

/-- The assignment loop of `_process_data`: walk the pre-allocated zero
slices (`zs`) in step with the sorted datasets, writing
`volume[i] = pixel_array.astype(int16) * R_slope + R_int`.  On the first
assignment that numpy rejects, the exception leaves the current and all
later slices at their zero value and the flag `false` reports the raised
exception. -/
def fillVolume (rows cols : Nat) (slope intercept : ℚ) :
    List (List (List ℚ)) → List Dataset → List (List (List ℚ)) × Bool
  | zs, [] => (zs, true)
  | [], _ :: _ => ([], true)
  | z :: zs, d :: ds =>
    match broadcastTo rows cols (huMatrix slope intercept d.pix) with
    | none => (z :: zs, false)
    | some m =>
      let rest := fillVolume rows cols slope intercept zs ds
      (m :: rest.1, rest.2)

/-- `np.min` over a list of values; `none` on an empty array (numpy raises
there). -/
def listMin : List ℚ → Option ℚ
  | [] => none
  | x :: xs => some (xs.foldl min x)

/-- `np.max` over a list of values; `none` on an empty array. -/
def listMax : List ℚ → Option ℚ
  | [] => none
  | x :: xs => some (xs.foldl max x)

/-- `DICOMDataLoader._process_data`.  Returns the mutated state together
with `true` when the method returned normally and `false` when it raised
(the caller `load_series` catches that exception).  The partially filled
volume stays in the state on failure, exactly as the Python object keeps
its partially assigned `self.full_hu_volume`; `is_loaded` is only set once
every slice has been written. -/
def process_data (st : LoaderState) (sorted_datasets : List Dataset) :
    LoaderState × Bool :=
  match sorted_datasets with
  | [] => (st, true)
  | ds0 :: _ =>
    let header0 : Header :=
      { rows := ds0.rowsTag, cols := ds0.colsTag,
        sliceThickness := ds0.sliceThickness,
        pixelSpacing := ds0.pixelSpacing,
        numSlices := 0,
        rescaleIntercept := ds0.rescaleIntercept,
        rescaleSlope := ds0.rescaleSlope,
        minHU := none, maxHU := none }
    let n := sorted_datasets.length
    let zeros :=
      List.replicate n (List.replicate header0.rows
        (List.replicate header0.cols (0 : ℚ)))
    let filled := fillVolume header0.rows header0.cols header0.rescaleSlope
      header0.rescaleIntercept zeros sorted_datasets
    if filled.2 = false then
      -- the loop raised mid-way: NumSlices is still 0, MinHU/MaxHU unset
      ({ st with header_info := some header0,
                 full_hu_volume := some filled.1,
                 is_loaded := false }, false)
    else
      -- `all_hu_values` collects every image's hu_array.ravel()
      let all_hu := (sorted_datasets.map
        (fun d => (huMatrix header0.rescaleSlope header0.rescaleIntercept d.pix).flatten)).flatten
      match listMin all_hu, listMax all_hu with
      | some mn, some mx =>
        let header1 : Header :=
          { header0 with numSlices := n, minHU := some mn, maxHU := some mx }
        ({ st with
             header_info := some header1,
             full_hu_volume := some filled.1,
             is_loaded := true }, true)
      | _, _ =>
        -- `np.min` raised on an empty concatenation; `is_loaded` and
        -- NumSlices were already written before that line runs
        let header1 : Header := { header0 with numSlices := n }
        ({ st with
             header_info := some header1,
             full_hu_volume := some filled.1,
             is_loaded := true }, false)

/-- The reader loop of `_sort_dicom_series`: keep the datasets that were
read without an exception (`none` models a read that raised) and that carry
`PixelData`; the others are skipped with `continue`. -/
def usableOf : List (Option Dataset) → List Dataset
  | [] => []
  | none :: fs => usableOf fs
  | some d :: fs =>
    if d.hasPixelData then d :: usableOf fs else usableOf fs

/-- One iteration of building `series_map`: a Python dict keyed by
`SeriesInstanceUID`, insertion-ordered, each value the list of datasets of
that series in encountered order. -/
def addToMap (m : List (Option Nat × List Dataset)) (d : Dataset) :
    List (Option Nat × List Dataset) :=
  match m with
  | [] => [(d.seriesUID, [d])]
  | (k, v) :: rest =>
    if k = d.seriesUID then (k, v ++ [d]) :: rest
    else (k, v) :: addToMap rest d

/-- The fully built `series_map` dict. -/
def seriesMap (l : List Dataset) : List (Option Nat × List Dataset) :=
  l.foldl addToMap []

/-- Stable insertion step for `main_series.sort(key=lambda x: x[0])`: the
new element passes every element whose z position is `≤` its own, so
elements with equal positions keep their previous relative order. -/
def insertZ (x : Dataset) : List Dataset → List Dataset
  | [] => [x]
  | y :: ys => if y.zPos ≤ x.zPos then y :: insertZ x ys else x :: y :: ys

/-- Python's `list.sort(key=...)` is a stable ascending sort; it is modelled
as a stable insertion sort (elements inserted left to right). -/
def sortByZ (l : List Dataset) : List Dataset :=
  l.foldl (fun acc x => insertZ x acc) []

/-- `DICOMDataLoader._sort_dicom_series`.  `max(series_map, key=...)`
iterates the dict in insertion (first-seen) order and returns the first
key of maximal count. -/
def sort_dicom_series (dcm_files : List (Option Dataset)) : List Dataset :=
  let m := seriesMap (usableOf dcm_files)
  match m with
  | [] => []
  | e :: rest =>
    let best := rest.foldl
      (fun best x => if x.2.length > best.2.length then x else best) e
    sortByZ best.2

/-- `DICOMDataLoader.load_series`.  The returned Bool is the success flag
(the second component of the Python return pair; the message string is
abstracted away).  The internal sort is total in this model, so the
`except` branch around `_sort_dicom_series` cannot fire. -/
def load_series (st : LoaderState) (dcm_files : List (Option Dataset)) :
    LoaderState × Bool :=
  let st := { st with series_data := [], header_info := none,
                      is_loaded := false, full_hu_volume := none }
  if dcm_files = [] then (st, false)
  else
    let sorted := sort_dicom_series dcm_files
    if sorted = [] then (st, false)
    else
      let r := process_data st sorted
      if r.2 = false then (r.1, false)
      else if r.1.is_loaded then (r.1, true)
      else (r.1, false)

/-- `volume[:, index, :]`: row `index` of every depth slice. -/
def coronalAt (index : Nat) : List (List (List ℚ)) → Option (List (List ℚ))
  | [] => some []
  | sl :: sls =>
    match sl[index]?, coronalAt index sls with
    | some r, some rs => some (r :: rs)
    | _, _ => none

/-- `sl[:, index]`: entry `index` of every row of one slice. -/
def columnOf (index : Nat) : List (List ℚ) → Option (List ℚ)
  | [] => some []
  | row :: rows =>
    match row[index]?, columnOf index rows with
    | some x, some xs => some (x :: xs)
    | _, _ => none

/-- `volume[:, :, index]`: column `index` of every depth slice. -/
def sagittalAt (index : Nat) : List (List (List ℚ)) → Option (List (List ℚ))
  | [] => some []
  | sl :: sls =>
    match columnOf index sl, sagittalAt index sls with
    | some c, some cs => some (c :: cs)
    | _, _ => none

/-- `DICOMDataLoader.get_slice_data`.  Out-of-range numpy indexing raises in
Python; no state reachable through the GUI triggers it, and it is modelled
as `none` here. -/
def get_slice_data (st : LoaderState) (view_plane : String) (index : Nat) :
    Option (List (List ℚ)) :=
  if st.is_loaded = false then none
  else
    match st.full_hu_volume with
    | none => none  -- unreachable: a loaded state always holds a volume
    | some volume =>
      if view_plane = "Axial" then volume[index]?
      else if view_plane = "Coronal" then coronalAt index volume
      else if view_plane = "Sagittal" then sagittalAt index volume
      else none

/-- `DICOMDataLoader.get_aspect_ratio`. -/
def get_aspect_ratio (st : LoaderState) (view_plane : String) : ℚ :=
  if st.is_loaded = false then 1
  else
    match st.header_info with
    | none => 1  -- unreachable: a loaded state always has its header set
    | some h =>
      let sy := h.pixelSpacing.1
      let sx := h.pixelSpacing.2
      let sz := h.sliceThickness
      if view_plane = "Axial" then sx / sy
      else if view_plane = "Coronal" then sx / sz
      else if view_plane = "Sagittal" then sy / sz
      else 1

/-! ## The Tkinter application state (`DICOMViewerApp`) -/

/-- The model-relevant mutable fields of `DICOMViewerApp`.  Widget state
(labels, scales, the rendered image) is derived from these and carries no
extra information. -/
structure AppState where
  loader : LoaderState
  current_slice : ℤ
  window_level : ℚ
  window_width : ℚ
  current_view : String
  mouse_x : ℤ
  mouse_y : ℤ
  start_wl : ℚ
  start_ww : ℚ
  start_slice : ℤ
deriving DecidableEq

/-- `DICOMViewerApp.get_max_slice_index`.  When the header dict is still
empty, every `info.get(key, 1)` falls back to the default 1, so each branch
yields 0. -/
def get_max_slice_index (app : AppState) (view_plane : String) : ℤ :=
  match app.loader.header_info with
  | none => 0
  | some info =>
    if view_plane = "Axial" then (info.numSlices : ℤ) - 1
    else if view_plane = "Coronal" then (info.rows : ℤ) - 1
    else if view_plane = "Sagittal" then (info.cols : ℤ) - 1
    else 0

/-- `DICOMViewerApp.set_current_slice`: clamp into `[0, max_index]`.  (The
`!=` guard in the source only skips redundant widget updates; the resulting
state is the same.) -/
def set_current_slice (app : AppState) (new_slice : ℤ) : AppState :=
  let max_index := get_max_slice_index app app.current_view
  { app with current_slice := max 0 (min max_index new_slice) }

/-- `DICOMViewerApp.on_mouse_down` (left press): snapshot the press point
and the current window level/width. -/
def on_mouse_down (app : AppState) (x y : ℤ) : AppState :=
  if app.loader.is_loaded then
    { app with mouse_x := x, mouse_y := y,
               start_wl := app.window_level, start_ww := app.window_width }
  else app

/-- `DICOMViewerApp.on_mouse_drag` (left drag): recompute level/width from
the press-time snapshot; WL_SENSITIVITY = 2.0, WW_SENSITIVITY = 4.0, width
floored at 10.0. -/
def on_mouse_drag (app : AppState) (x y : ℤ) : AppState :=
  if app.loader.is_loaded then
    let dx : ℤ := x - app.mouse_x
    let dy : ℤ := y - app.mouse_y
    { app with window_width := max 10 (app.start_ww + (dx : ℚ) * 4),
               window_level := app.start_wl - (dy : ℚ) * 2 }
  else app

/-- `DICOMViewerApp.on_mouse_down_right`: snapshot the press y and the
current slice index (the x coordinate is not recorded). -/
def on_mouse_down_right (app : AppState) (y : ℤ) : AppState :=
  if app.loader.is_loaded then
    { app with mouse_y := y, start_slice := app.current_slice }
  else app

/-- `DICOMViewerApp.on_mouse_drag_right`: `slice_delta = -int(dy / 10)`.
Python `int()` truncates toward zero, which is `Int.tdiv`. -/
def on_mouse_drag_right (app : AppState) (y : ℤ) : AppState :=
  if app.loader.is_loaded then
    let dy : ℤ := y - app.mouse_y
    let slice_delta : ℤ := -(Int.tdiv dy 10)
    set_current_slice app (app.start_slice + slice_delta)
  else app

/-- `DICOMViewerApp.on_mouse_wheel` with the step `delta` already computed
(`mac_direction`, or `int(event.delta / 120)`; a zero `event.delta` returns
early, which coincides with stepping by 0 in every reachable state). -/
def on_mouse_wheel (app : AppState) (delta : ℤ) : AppState :=
  if app.loader.is_loaded then
    set_current_slice app (app.current_slice + delta)
  else app

/-- `DICOMViewerApp.update_slice` (slice slider callback) with the scale
value already truncated to an integer. -/
def update_slice (app : AppState) (new_slice : ℤ) : AppState :=
  if new_slice ≠ app.current_slice then set_current_slice app new_slice
  else app

/-- `DICOMViewerApp.reset_slice_scale`: recompute the extent of the current
view and reset the index to 0 when it exceeds the new maximum. -/
def reset_slice_scale (app : AppState) : AppState :=
  let max_index := get_max_slice_index app app.current_view
  if app.current_slice > max_index then { app with current_slice := 0 }
  else app

/-- `DICOMViewerApp.change_view` with the radio-button value `p`. -/
def change_view (app : AppState) (p : String) : AppState :=
  if app.loader.is_loaded then
    reset_slice_scale { app with current_view := p }
  else app

/-- The user interactions that touch the slice/view/contrast state. -/
inductive UIEvent where
  | mouseDown (x y : ℤ)
  | mouseDrag (x y : ℤ)
  | mouseDownRight (y : ℤ)
  | mouseDragRight (y : ℤ)
  | wheel (delta : ℤ)
  | slider (v : ℤ)
  | changeView (p : String)
deriving DecidableEq

/-- Dispatch one event to its handler. -/
def step (app : AppState) : UIEvent → AppState
  | .mouseDown x y => on_mouse_down app x y
  | .mouseDrag x y => on_mouse_drag app x y
  | .mouseDownRight y => on_mouse_down_right app y
  | .mouseDragRight y => on_mouse_drag_right app y
  | .wheel d => on_mouse_wheel app d
  | .slider v => update_slice app v
  | .changeView p => change_view app p

/-- Run a sequence of interactions. -/
def run (app : AppState) (es : List UIEvent) : AppState :=
  es.foldl step app

/-! ## The windowing transform of `update_image` -/

/-- The two masked assignments of `update_image`: clamp a value into
`[min_val, max_val] = [L - W/2, L + W/2]`. -/
def windowClamp (L W x : ℚ) : ℚ :=
  if x < L - W / 2 then L - W / 2
  else if x > L + W / 2 then L + W / 2
  else x

/-- The clamp-and-rescale of `update_image` on one value: clamp into
`[L - W/2, L + W/2]`, then map affinely onto `[0, 255]` via
`(clamped - min_val) / W * 255`. -/
def windowValue (L W x : ℚ) : ℚ :=
  (windowClamp L W x - (L - W / 2)) / W * 255

/-- Truncation toward zero (the C cast that `astype` performs). -/
def ratTrunc (q : ℚ) : ℤ :=
  if q < 0 then -⌊-q⌋ else ⌊q⌋

/-- One output sample of `update_image`: windowed value cast with
`astype(np.uint8)` (truncate toward zero, wrap modulo 256; the wrap is the
identity on the range `[0, 255]` that `windowValue` produces). -/
def windowByte (L W x : ℚ) : ℤ :=
  ratTrunc (windowValue L W x) % 256

/-- The full 8-bit grayscale image `update_image` builds from a slice. -/
def windowImage (L W : ℚ) (m : List (List ℚ)) : List (List ℤ) :=
  m.map (fun row => row.map (windowByte L W))

/-! ## Spec-side definitions for the series resolver (claim C4)

These follow the specification's words ("partition candidates by series
identity; choose the partition with the largest member count, first-seen
winning ties") and are compared with `sort_dicom_series` above. -/

/-- First occurrences of each value, in encountered order. -/
def firstSeenAux (seen : List (Option Nat)) : List (Option Nat) → List (Option Nat)
  | [] => []
  | x :: xs =>
    if x ∈ seen then firstSeenAux seen xs
    else x :: firstSeenAux (x :: seen) xs

/-- The distinct series identities in first-seen order. -/
def firstSeen (l : List (Option Nat)) : List (Option Nat) :=
  firstSeenAux [] l

/-- The members of the partition with series identity `u`, in encountered
order. -/
def candidatesOf (u : Option Nat) (l : List Dataset) : List Dataset :=
  l.filter (fun d => decide (d.seriesUID = u))

/-- The member count of the partition with identity `u`. -/
def countOf (u : Option Nat) (l : List Dataset) : Nat :=
  (candidatesOf u l).length

/-- First maximiser of `f` over a list (the earlier element wins ties). -/
def argmaxFirst (f : Option Nat → Nat) : List (Option Nat) → Option (Option Nat)
  | [] => none
  | u :: us =>
    some (us.foldl (fun best x => if f x > f best then x else best) u)

/-- Spec-side selection: among the series identities in first-seen order,
the first one of maximal member count. -/
def specMainUID (l : List Dataset) : Option (Option Nat) :=
  argmaxFirst (fun u => countOf u l) (firstSeen (l.map (fun d => d.seriesUID)))

/-! ## Concrete example states used by witnesses and counterexamples -/

/-- A minimal well-formed 1×1 DICOM image with raw sample 5. -/
def exDataset : Dataset :=
  { seriesUID := some 0, zPos := 0, hasPixelData := true,
    rowsTag := 1, colsTag := 1, sliceThickness := 1, pixelSpacing := (1, 1),
    rescaleSlope := 1, rescaleIntercept := 0, pix := [[5]] }

/-- The loader state after successfully loading the folder
`[exDataset]`. -/
def exLoaded : LoaderState :=
  (load_series initLoader [some exDataset]).1

/-- The header that the load of `[exDataset]` produces. -/
def exHeader : Header :=
  { rows := 1, cols := 1, sliceThickness := 1, pixelSpacing := (1, 1),
    numSlices := 1, rescaleIntercept := 0, rescaleSlope := 1,
    minHU := some 5, maxHU := some 5 }

/-! Concrete app states for witnesses/counterexamples.  `exApp10` is the
state after loading a 10-slice 4×4 series (uniform zero samples), viewing
the Axial plane, having scrubbed to slice 5, with WL 40 / WW 400. -/

def exHeader10 : Header :=
  { rows := 4, cols := 4, sliceThickness := 1, pixelSpacing := (1, 1),
    numSlices := 10, rescaleIntercept := 0, rescaleSlope := 1,
    minHU := some 0, maxHU := some 0 }

def exLoader10 : LoaderState :=
  { series_data := [], header_info := some exHeader10, is_loaded := true,
    full_hu_volume :=
      some (List.replicate 10 (List.replicate 4 (List.replicate 4 (0 : ℚ)))) }

def exApp10 : AppState :=
  { loader := exLoader10, current_slice := 5, window_level := 40,
    window_width := 400, current_view := "Axial", mouse_x := 0, mouse_y := 0,
    start_wl := 40, start_ww := 400, start_slice := 0 }

/-- The three recognised view planes. -/
def validView (p : String) : Prop :=
  p = "Axial" ∨ p = "Coronal" ∨ p = "Sagittal"

/-- Every axis change in an event sequence targets a recognised plane (the
radio buttons only offer the three planes). -/
def validEvents : List UIEvent → Prop
  | [] => True
  | UIEvent.changeView p :: es => validView p ∧ validEvents es
  | _ :: es => validEvents es

/-- A second 1×1 image with its own calibration pair slope 2 / intercept 0,
placed at depth 1 of the same series as `exDataset`. -/
def cex2b : Dataset :=
  { exDataset with zPos := 1, rescaleSlope := 2 }

/-- A well-formed first image of tagged shape 2×2. -/
def cex3a : Dataset :=
  { exDataset with rowsTag := 2, colsTag := 2, pix := [[1, 2], [3, 4]] }

/-- A 3×2 image of the same series at depth 2: its row count 3 matches
neither the first image's row count 2 nor 1, so numpy rejects the
assignment. -/
def cex3bad : Dataset :=
  { exDataset with zPos := 2, pix := [[9, 9], [8, 8], [7, 7]] }

/-- A 1×2 image at depth 1 of the same series: its row count 1 differs from
the first image's row count 2, which by the claim must abort the build. -/
def cex3b : Dataset :=
  { exDataset with zPos := 1, colsTag := 2, pix := [[9, 9]] }

/-- The specification's view of `series_map`: one entry per series identity
in first-seen order, carrying that partition's members in encountered
order. -/
def groupOf (l : List Dataset) : List (Option Nat × List Dataset) :=
  (firstSeen (l.map (fun d => d.seriesUID))).map
    (fun u => (u, candidatesOf u l))

/-- Series "A" (uid 10), depth position 5. -/
def exA1 : Dataset := { exDataset with seriesUID := some 10, zPos := 5 }

/-- Series "B" (uid 20), depth position 1. -/
def exB1 : Dataset := { exDataset with seriesUID := some 20, zPos := 1 }

/-- Series "A" (uid 10), depth position 3. -/
def exA2 : Dataset := { exDataset with seriesUID := some 10, zPos := 3 }


/-! ## Claim theorems -/

/-- `astype(np.int16)` is the identity on values already in int16 range. -/
theorem wrap16_eq_self (z : ℤ) (h1 : -32768 ≤ z) (h2 : z < 32768) :
    wrap16 z = z := by
  unfold wrap16
  omega

/-- Evaluation of the example load: the loader ends up loaded, with the
calibrated 1×1×1 volume and the populated header. -/
theorem exLoaded_eq :
    exLoaded = { series_data := [], header_info := some exHeader,
                 is_loaded := true, full_hu_volume := some [[[5]]] } := by
  simp [exLoaded, exHeader, load_series, sort_dicom_series, usableOf,
    seriesMap, addToMap, sortByZ, insertZ, process_data, fillVolume,
    broadcastTo, broadcastRows, broadcastRow, huMatrix,
    show wrap16 5 = 5 from by decide, listMin, listMax, exDataset, initLoader]

/-- C1 (amended): `load_series` resets the loader to the unloaded state
before doing anything else, so its outcome — the resulting state and the
success flag — is entirely independent of whatever Volume was loaded
before; a previously loaded Volume is discarded, never retained, and on
success the whole new Volume becomes visible in the returned state. -/
theorem load_series_independent_of_prior_state :
    ∀ (s1 s2 : LoaderState) (files : List (Option Dataset)),
      load_series s1 files = load_series s2 files := by
  intro s1 s2 files
  rfl

/-- C1 counterexample: after a successful load of a one-slice series, a
subsequent failing `load_series` call (empty folder) reports failure but
does NOT leave the previously loaded Volume untouched: the old Volume is
gone and the loader is back in the unloaded state, so the old data is not
usable by the caller. -/
theorem load_series_failure_discards_previous_volume :
    (load_series initLoader [some exDataset]).1.is_loaded = true ∧
    (load_series initLoader [some exDataset]).1.full_hu_volume = some [[[5]]] ∧
    (load_series exLoaded []).2 = false ∧
    (load_series exLoaded []).1.full_hu_volume = none ∧
    (load_series exLoaded []).1.is_loaded = false ∧
    get_slice_data (load_series exLoaded []).1 "Axial" 0 = none := by
  norm_num [load_series, sort_dicom_series, usableOf, seriesMap, addToMap,
    sortByZ, insertZ, process_data, fillVolume, broadcastTo, broadcastRows,
    broadcastRow, huMatrix, wrap16, listMin, listMax, exLoaded, exDataset,
    initLoader, get_slice_data]

/-- C8: for a loaded Volume with positive spacings, the aspect ratio is
`column_spacing / row_spacing` for the Axial (Depth) plane,
`column_spacing / slice_thickness` for the Coronal (Row) plane, and
`row_spacing / slice_thickness` for the Sagittal (Column) plane
(`pixelSpacing.1` is the row spacing `sy`, `pixelSpacing.2` the column
spacing `sx`, `sliceThickness` the depth spacing `sz`). -/
theorem get_aspect_ratio_spec (st : LoaderState) (h : Header)
    (hl : st.is_loaded = true) (hh : st.header_info = some h)
    (_hsy : 0 < h.pixelSpacing.1) (_hsx : 0 < h.pixelSpacing.2)
    (_hsz : 0 < h.sliceThickness) :
    get_aspect_ratio st "Axial" = h.pixelSpacing.2 / h.pixelSpacing.1 ∧
    get_aspect_ratio st "Coronal" = h.pixelSpacing.2 / h.sliceThickness ∧
    get_aspect_ratio st "Sagittal" = h.pixelSpacing.1 / h.sliceThickness := by
  refine ⟨?_, ?_, ?_⟩ <;> simp [get_aspect_ratio, hl, hh]

/-- C8 witness at the concrete loaded state `exLoaded`. -/
theorem get_aspect_ratio_spec_witness :
    get_aspect_ratio exLoaded "Axial" = exHeader.pixelSpacing.2 / exHeader.pixelSpacing.1 ∧
    get_aspect_ratio exLoaded "Coronal" = exHeader.pixelSpacing.2 / exHeader.sliceThickness ∧
    get_aspect_ratio exLoaded "Sagittal" = exHeader.pixelSpacing.1 / exHeader.sliceThickness :=
  get_aspect_ratio_spec exLoaded exHeader (by simp [exLoaded_eq])
    (by simp [exLoaded_eq]) (by decide) (by decide) (by decide)

/-- C10: when no volume is loaded, `get_slice_data` returns `none` and
`get_aspect_ratio` returns 1 for every plane selector and index; the same
fallbacks apply (in any state) when the plane selector is not one of
`Axial`, `Coronal`, `Sagittal`. -/
theorem unloaded_and_unknown_plane_fallbacks :
    ∀ (st : LoaderState) (p : String) (i : Nat),
      (st.is_loaded = false →
        get_slice_data st p i = none ∧ get_aspect_ratio st p = 1) ∧
      (p ≠ "Axial" → p ≠ "Coronal" → p ≠ "Sagittal" →
        get_slice_data st p i = none ∧ get_aspect_ratio st p = 1) := by
  intro st p i
  constructor
  · intro hun
    simp [get_slice_data, get_aspect_ratio, hun]
  · intro h1 h2 h3
    constructor
    · unfold get_slice_data
      rcases hb : st.is_loaded with _ | _
      · simp
      · simp only [Bool.true_eq_false, if_false]
        rcases st.full_hu_volume with _ | v
        · rfl
        · simp [h1, h2, h3]
    · unfold get_aspect_ratio
      rcases hb : st.is_loaded with _ | _
      · simp
      · simp only [Bool.true_eq_false, if_false]
        rcases st.header_info with _ | h
        · rfl
        · simp [h1, h2, h3]

/-- C10 witness: the unloaded loader and an unknown plane on a loaded
loader, both at concrete inputs. -/
theorem unloaded_and_unknown_plane_fallbacks_witness :
    (get_slice_data initLoader "Axial" 0 = none ∧
     get_aspect_ratio initLoader "Axial" = 1) ∧
    (get_slice_data exLoaded "Oblique" 0 = none ∧
     get_aspect_ratio exLoaded "Oblique" = 1) :=
  ⟨(unloaded_and_unknown_plane_fallbacks initLoader "Axial" 0).1 rfl,
   (unloaded_and_unknown_plane_fallbacks exLoaded "Oblique" 0).2
     (by decide) (by decide) (by decide)⟩

/-! ## GUI gesture claims (C6, C7, C9) -/

/-- Unfolding lemma: running an event list processes the head first. -/
theorem run_cons (app : AppState) (e : UIEvent) (es : List UIEvent) :
    run app (e :: es) = run (step app e) es := rfl

/-- Unfolding lemma: running no events leaves the state unchanged. -/
theorem run_nil (app : AppState) : run app [] = app := rfl

/-- No UI event touches the loader. -/
theorem step_loader (app : AppState) (e : UIEvent) :
    (step app e).loader = app.loader := by
  cases e <;>
    simp only [step, on_mouse_down, on_mouse_drag, on_mouse_down_right,
      on_mouse_drag_right, on_mouse_wheel, update_slice, set_current_slice,
      reset_slice_scale, change_view] <;>
    split <;> (try split) <;> rfl

/-- `get_max_slice_index` only reads the loader, so states with equal
loaders agree on it. -/
theorem get_max_slice_index_congr (app app2 : AppState) (p : String)
    (h : app.loader = app2.loader) :
    get_max_slice_index app p = get_max_slice_index app2 p := by
  unfold get_max_slice_index
  rw [h]

/-- A left drag changes only the window level/width: press point, start
snapshot and loader are untouched. -/
theorem on_mouse_drag_preserves (app : AppState) (a b : ℤ) :
    (on_mouse_drag app a b).mouse_x = app.mouse_x ∧
    (on_mouse_drag app a b).mouse_y = app.mouse_y ∧
    (on_mouse_drag app a b).start_wl = app.start_wl ∧
    (on_mouse_drag app a b).start_ww = app.start_ww ∧
    (on_mouse_drag app a b).loader = app.loader := by
  unfold on_mouse_drag
  split <;> simp

/-- Any number of intermediate left-drag events preserves the press point,
the start snapshot and the loader. -/
theorem run_drags_preserves_snapshot (mids : List UIEvent) :
    ∀ app : AppState, (∀ e ∈ mids, ∃ a b, e = UIEvent.mouseDrag a b) →
    (run app mids).mouse_x = app.mouse_x ∧
    (run app mids).mouse_y = app.mouse_y ∧
    (run app mids).start_wl = app.start_wl ∧
    (run app mids).start_ww = app.start_ww ∧
    (run app mids).loader = app.loader := by
  induction mids with
  | nil => intro app _; exact ⟨rfl, rfl, rfl, rfl, rfl⟩
  | cons e es ih =>
    intro app hm
    obtain ⟨a, b, he⟩ := hm e (List.mem_cons_self e es)
    subst he
    have h1 := ih (step app (UIEvent.mouseDrag a b))
      (fun x hx => hm x (List.mem_cons_of_mem _ hx))
    have h2 := on_mouse_drag_preserves app a b
    rw [run_cons]
    exact ⟨h1.1.trans h2.1, h1.2.1.trans h2.2.1, h1.2.2.1.trans h2.2.2.1,
      h1.2.2.2.1.trans h2.2.2.2.1, h1.2.2.2.2.trans h2.2.2.2.2⟩

/-- C6: a contrast drag gesture is an absolute recomputation from the
press-time snapshot: after the press at `(x0, y0)` and any number of
intermediate drag events, a drag at `(x, y)` yields level
`startLevel - dy * 2.0` and width `max(10.0, startWidth + dx * 4.0)`,
where the start snapshot is the level/width at press time and
`dx = x - x0`, `dy = y - y0`. -/
theorem contrast_drag_absolute (app : AppState) (x0 y0 x y : ℤ)
    (mids : List UIEvent) (hl : app.loader.is_loaded = true)
    (hm : ∀ e ∈ mids, ∃ a b, e = UIEvent.mouseDrag a b) :
    (step (run (step app (UIEvent.mouseDown x0 y0)) mids)
        (UIEvent.mouseDrag x y)).window_level
      = app.window_level - ((y - y0 : ℤ) : ℚ) * 2 ∧
    (step (run (step app (UIEvent.mouseDown x0 y0)) mids)
        (UIEvent.mouseDrag x y)).window_width
      = max 10 (app.window_width + ((x - x0 : ℤ) : ℚ) * 4) := by
  have ha1 : step app (UIEvent.mouseDown x0 y0)
      = { app with mouse_x := x0, mouse_y := y0,
                   start_wl := app.window_level, start_ww := app.window_width } := by
    simp [step, on_mouse_down, hl]
  have hp := run_drags_preserves_snapshot mids (step app (UIEvent.mouseDown x0 y0)) hm
  have hmx : (run (step app (UIEvent.mouseDown x0 y0)) mids).mouse_x = x0 := by
    rw [hp.1, ha1]
  have hmy : (run (step app (UIEvent.mouseDown x0 y0)) mids).mouse_y = y0 := by
    rw [hp.2.1, ha1]
  have hwl : (run (step app (UIEvent.mouseDown x0 y0)) mids).start_wl
      = app.window_level := by
    rw [hp.2.2.1, ha1]
  have hww : (run (step app (UIEvent.mouseDown x0 y0)) mids).start_ww
      = app.window_width := by
    rw [hp.2.2.2.1, ha1]
  have hld : (run (step app (UIEvent.mouseDown x0 y0)) mids).loader
      = app.loader := by
    rw [hp.2.2.2.2, ha1]
  simp only [step] at hmx hmy hwl hww hld ⊢
  constructor <;>
    simp [on_mouse_drag, hld, hl, hmx, hmy, hwl, hww]

/-- C6 witness: the spec's own scenario — press at (100,100) with
WL 40 / WW 400, release at (80,130): level −20, width 320. -/
theorem contrast_drag_absolute_witness :
    (step (run (step exApp10 (UIEvent.mouseDown 100 100)) [])
        (UIEvent.mouseDrag 80 130)).window_level
      = exApp10.window_level - ((130 - 100 : ℤ) : ℚ) * 2 ∧
    (step (run (step exApp10 (UIEvent.mouseDown 100 100)) [])
        (UIEvent.mouseDrag 80 130)).window_width
      = max 10 (exApp10.window_width + ((80 - 100 : ℤ) : ℚ) * 4) :=
  contrast_drag_absolute exApp10 100 100 80 130 [] (by decide) (by simp)

/-- C7 counterexample: with the press at y0 = 100 and the pointer at
y = 75 (so dy = −25, not a multiple of 10), starting from slice 5 of a
10-slice axis, the code computes `-int(-25 / 10) = 2` and lands on
slice 7, while the claimed `−floor(−25 / 10) = 3` would land on slice 8. -/
theorem scrub_trunc_counterexample :
    (step (step exApp10 (UIEvent.mouseDownRight 100))
        (UIEvent.mouseDragRight 75)).current_slice = 7 ∧
    max 0 (min (get_max_slice_index exApp10 "Axial")
        (exApp10.current_slice + -(Int.fdiv (75 - 100) 10))) = 8 := by
  decide

/-- C7 (amended): a slice-scrub gesture from press point `y0` and start
index `startIndex` at pointer `y` sets the index to
`clamp(startIndex + delta, 0, axisExtent − 1)` with
`delta = −trunc((y − y0) / 10)` — truncation toward zero (Python `int()`),
not floor. -/
theorem scrub_gesture_spec (app : AppState) (y0 y : ℤ)
    (hl : app.loader.is_loaded = true) :
    (step (step app (UIEvent.mouseDownRight y0))
        (UIEvent.mouseDragRight y)).current_slice
      = max 0 (min (get_max_slice_index app app.current_view)
          (app.current_slice + -(Int.tdiv (y - y0) 10))) := by
  have ha1 : step app (UIEvent.mouseDownRight y0)
      = { app with mouse_y := y0, start_slice := app.current_slice } := by
    simp [step, on_mouse_down_right, hl]
  rw [ha1]
  simp [step, on_mouse_drag_right, set_current_slice, get_max_slice_index, hl]

/-- C7 witness for the amended statement, at the concrete gesture of the
counterexample. -/
theorem scrub_gesture_spec_witness :
    (step (step exApp10 (UIEvent.mouseDownRight 100))
        (UIEvent.mouseDragRight 75)).current_slice
      = max 0 (min (get_max_slice_index exApp10 exApp10.current_view)
          (exApp10.current_slice + -(Int.tdiv (75 - 100) 10))) :=
  scrub_gesture_spec exApp10 100 75 (by decide)

/-! ## Slice-index invariant (C9) -/

/-- With a populated header whose three dimensions are at least 1, every
recognised plane has a nonnegative maximal index. -/
theorem gmsi_nonneg (app : AppState) (h : Header) (p : String)
    (hh : app.loader.header_info = some h)
    (hn : 1 ≤ h.numSlices) (hr : 1 ≤ h.rows) (hc : 1 ≤ h.cols)
    (hp : validView p) :
    0 ≤ get_max_slice_index app p := by
  unfold get_max_slice_index
  rw [hh]
  rcases hp with h1 | h1 | h1 <;> subst h1 <;> simp <;> omega

/-- `set_current_slice` lands in `[0, max_index]` whenever the maximal
index is nonnegative. -/
theorem set_current_slice_mem (app : AppState) (v : ℤ)
    (hge : 0 ≤ get_max_slice_index app app.current_view) :
    0 ≤ (set_current_slice app v).current_slice ∧
    (set_current_slice app v).current_slice
      ≤ get_max_slice_index app app.current_view := by
  unfold set_current_slice
  constructor
  · simp
  · simp
    omega

/-- One UI event preserves the slice-index invariant: the view stays one of
the three planes (given valid axis-change targets) and the index stays in
`[0, axis_extent − 1]`. -/
theorem step_preserves_inv (app : AppState) (h : Header) (e : UIEvent)
    (hl : app.loader.is_loaded = true)
    (hh : app.loader.header_info = some h)
    (hn : 1 ≤ h.numSlices) (hr : 1 ≤ h.rows) (hc : 1 ≤ h.cols)
    (hv : validView app.current_view)
    (h0 : 0 ≤ app.current_slice)
    (h1 : app.current_slice ≤ get_max_slice_index app app.current_view)
    (he : ∀ p, e = UIEvent.changeView p → validView p) :
    validView (step app e).current_view ∧
    0 ≤ (step app e).current_slice ∧
    (step app e).current_slice
      ≤ get_max_slice_index (step app e) (step app e).current_view := by
  have hge : 0 ≤ get_max_slice_index app app.current_view :=
    gmsi_nonneg app h app.current_view hh hn hr hc hv
  cases e with
  | mouseDown a b =>
    simp only [step, on_mouse_down, hl, if_true]
    exact ⟨hv, h0, h1⟩
  | mouseDrag a b =>
    simp only [step, on_mouse_drag, hl, if_true]
    exact ⟨hv, h0, h1⟩
  | mouseDownRight b =>
    simp only [step, on_mouse_down_right, hl, if_true]
    exact ⟨hv, h0, h1⟩
  | mouseDragRight b =>
    simp only [step, on_mouse_drag_right, hl, if_true]
    exact ⟨hv, (set_current_slice_mem app _ hge).1, (set_current_slice_mem app _ hge).2⟩
  | wheel d =>
    simp only [step, on_mouse_wheel, hl, if_true]
    exact ⟨hv, (set_current_slice_mem app _ hge).1, (set_current_slice_mem app _ hge).2⟩
  | slider v =>
    simp only [step, update_slice]
    split
    · exact ⟨hv, (set_current_slice_mem app _ hge).1, (set_current_slice_mem app _ hge).2⟩
    · exact ⟨hv, h0, h1⟩
  | changeView p =>
    have hp : validView p := he p rfl
    have hge2 : 0 ≤ get_max_slice_index app p :=
      gmsi_nonneg app h p hh hn hr hc hp
    simp only [step, change_view, reset_slice_scale, hl, if_true]
    split
    · exact ⟨hp, le_refl 0, hge2⟩
    · rename_i hgt
      rw [not_lt] at hgt
      exact ⟨hp, h0, hgt⟩

/-- Running any sequence of UI events preserves the slice-index
invariant. -/
theorem run_preserves_inv (es : List UIEvent) :
    ∀ (app : AppState) (h : Header),
    app.loader.is_loaded = true →
    app.loader.header_info = some h →
    1 ≤ h.numSlices → 1 ≤ h.rows → 1 ≤ h.cols →
    validView app.current_view →
    0 ≤ app.current_slice →
    app.current_slice ≤ get_max_slice_index app app.current_view →
    validEvents es →
    validView (run app es).current_view ∧
    0 ≤ (run app es).current_slice ∧
    (run app es).current_slice
      ≤ get_max_slice_index (run app es) (run app es).current_view := by
  induction es with
  | nil =>
    intro app h _ _ _ _ _ hv h0 h1 _
    exact ⟨hv, h0, h1⟩
  | cons e es ih =>
    intro app h hl hh hn hr hc hv h0 h1 hve
    have hhead : ∀ p, e = UIEvent.changeView p → validView p := by
      intro p hp
      subst hp
      have hve2 : validView p ∧ validEvents es := by
        simpa [validEvents] using hve
      exact hve2.1
    have htail : validEvents es := by
      cases e <;> simp only [validEvents] at hve <;>
        first
          | exact hve
          | exact hve.2
    have hstep := step_preserves_inv app h e hl hh hn hr hc hv h0 h1 hhead
    have hld := step_loader app e
    rw [run_cons]
    exact ih (step app e) h (by rw [hld]; exact hl) (by rw [hld]; exact hh)
      hn hr hc hstep.1 hstep.2.1 hstep.2.2 htail

/-- C9: starting from any loaded state whose view is one of the three
planes and whose index is in range, every sequence of interactions (clicks,
drags, scrubs, wheel steps, slider changes, axis changes to recognised
planes) keeps the current index within `[0, axis_extent − 1]` for the
active axis, with the extent recomputed from the Volume dimensions; and an
axis change resets the index to 0 exactly when the held index exceeds the
new axis's maximal index, preserving it otherwise. -/
theorem slice_index_invariant (app : AppState) (h : Header) (es : List UIEvent)
    (hl : app.loader.is_loaded = true)
    (hh : app.loader.header_info = some h)
    (hn : 1 ≤ h.numSlices) (hr : 1 ≤ h.rows) (hc : 1 ≤ h.cols)
    (hv : validView app.current_view)
    (h0 : 0 ≤ app.current_slice)
    (h1 : app.current_slice ≤ get_max_slice_index app app.current_view)
    (hve : validEvents es) :
    (validView (run app es).current_view ∧
     0 ≤ (run app es).current_slice ∧
     (run app es).current_slice
       ≤ get_max_slice_index (run app es) (run app es).current_view) ∧
    (∀ p, validView p →
      (change_view app p).current_view = p ∧
      (change_view app p).current_slice =
        (if get_max_slice_index app p < app.current_slice then 0
         else app.current_slice)) := by
  refine ⟨run_preserves_inv es app h hl hh hn hr hc hv h0 h1 hve, ?_⟩
  intro p hp
  simp only [change_view, reset_slice_scale, hl, if_true]
  have hgw : get_max_slice_index { app with current_view := p } p
      = get_max_slice_index app p := rfl
  constructor
  · split <;> rfl
  · split
    · rename_i hgt
      rw [hgw] at hgt
      rw [if_pos hgt]
    · rename_i hgt
      rw [hgw] at hgt
      rw [if_neg hgt]

/-- C9 witness: a concrete interaction sequence on the loaded 10-slice
state — wheel by +7 (clamped to 9), switch to the Coronal plane (extent 4,
so the index resets to 0), scrub, and drag the slider to 99 (clamped). -/
theorem slice_index_invariant_witness :
    (validView (run exApp10 [UIEvent.wheel 7, UIEvent.changeView "Coronal",
        UIEvent.mouseDownRight 0, UIEvent.mouseDragRight 45,
        UIEvent.slider 99]).current_view ∧
     0 ≤ (run exApp10 [UIEvent.wheel 7, UIEvent.changeView "Coronal",
        UIEvent.mouseDownRight 0, UIEvent.mouseDragRight 45,
        UIEvent.slider 99]).current_slice ∧
     (run exApp10 [UIEvent.wheel 7, UIEvent.changeView "Coronal",
        UIEvent.mouseDownRight 0, UIEvent.mouseDragRight 45,
        UIEvent.slider 99]).current_slice
       ≤ get_max_slice_index
           (run exApp10 [UIEvent.wheel 7, UIEvent.changeView "Coronal",
              UIEvent.mouseDownRight 0, UIEvent.mouseDragRight 45,
              UIEvent.slider 99])
           (run exApp10 [UIEvent.wheel 7, UIEvent.changeView "Coronal",
              UIEvent.mouseDownRight 0, UIEvent.mouseDragRight 45,
              UIEvent.slider 99]).current_view) ∧
    (∀ p, validView p →
      (change_view exApp10 p).current_view = p ∧
      (change_view exApp10 p).current_slice =
        (if get_max_slice_index exApp10 p < exApp10.current_slice then 0
         else exApp10.current_slice)) :=
  slice_index_invariant exApp10 exHeader10
    [UIEvent.wheel 7, UIEvent.changeView "Coronal", UIEvent.mouseDownRight 0,
     UIEvent.mouseDragRight 45, UIEvent.slider 99]
    (by decide) (by decide) (by decide) (by decide) (by decide)
    (by simp [exApp10, validView]) (by decide) (by decide)
    (by simp [validEvents, validView])

/-! ## Windowing transform (C5) -/

/-- The windowed value lies between 0 and 255, equals the endpoints beyond
the window, and is monotone. -/
theorem windowValue_bounds (L W x : ℚ) (hW : 0 < W) :
    0 ≤ windowValue L W x ∧ windowValue L W x ≤ 255 := by
  have hmm : L - W / 2 ≤ L + W / 2 := by linarith
  unfold windowValue windowClamp
  constructor
  · split_ifs with h1 h2
    · simp
    · exact mul_nonneg (div_nonneg (by linarith) hW.le) (by norm_num)
    · exact mul_nonneg (div_nonneg (by linarith) hW.le) (by norm_num)
  · split_ifs with h1 h2
    · simp
    · have hWd : L + W / 2 - (L - W / 2) = W := by ring
      rw [hWd, div_self hW.ne', one_mul]
    · have h3 : (x - (L - W / 2)) / W ≤ 1 := by
        rw [div_le_one hW]
        linarith
      have h4 : (x - (L - W / 2)) / W * 255 ≤ 1 * 255 :=
        mul_le_mul_of_nonneg_right h3 (by norm_num)
      linarith

/-- Below the window the windowed value is 0. -/
theorem windowValue_low (L W x : ℚ) (hW : 0 < W) (hx : x ≤ L - W / 2) :
    windowValue L W x = 0 := by
  have hmm : L - W / 2 ≤ L + W / 2 := by linarith
  unfold windowValue windowClamp
  split_ifs with h1 h2
  · simp
  · linarith
  · have hx2 : x = L - W / 2 := le_antisymm hx (not_lt.mp h1)
    rw [hx2]
    simp

/-- Above the window the windowed value is 255. -/
theorem windowValue_high (L W x : ℚ) (hW : 0 < W) (hx : L + W / 2 ≤ x) :
    windowValue L W x = 255 := by
  have hmm : L - W / 2 ≤ L + W / 2 := by linarith
  have hWd : L + W / 2 - (L - W / 2) = W := by ring
  unfold windowValue windowClamp
  split_ifs with h1 h2
  · linarith
  · rw [hWd, div_self hW.ne', one_mul]
  · have hx2 : x = L + W / 2 := le_antisymm (not_lt.mp h2) hx
    rw [hx2, hWd, div_self hW.ne', one_mul]

/-- The windowed value is monotone non-decreasing in the input. -/
theorem windowValue_mono (L W x y : ℚ) (hW : 0 < W) (hxy : x ≤ y) :
    windowValue L W x ≤ windowValue L W y := by
  have hmm : L - W / 2 ≤ L + W / 2 := by linarith
  unfold windowValue windowClamp
  apply mul_le_mul_of_nonneg_right _ (by norm_num : (0:ℚ) ≤ 255)
  rw [div_le_div_iff_of_pos_right hW]
  apply sub_le_sub_right
  split_ifs <;> linarith

/-- On nonnegative values the C cast truncation is the floor. -/
theorem ratTrunc_of_nonneg (q : ℚ) (h : 0 ≤ q) : ratTrunc q = ⌊q⌋ := by
  unfold ratTrunc
  rw [if_neg (not_lt.mpr h)]

/-- C5: with window width `W > 0`, every output sample of the windowing
transform lies in `[0, 255]`; inputs at or below `L − W/2` map to 0, inputs
at or above `L + W/2` map to 255, and the transform is monotone
non-decreasing in the input value. -/
theorem windowing_spec (L W : ℚ) (hW : 0 < W) :
    (∀ x, 0 ≤ windowByte L W x ∧ windowByte L W x ≤ 255) ∧
    (∀ x, x ≤ L - W / 2 → windowByte L W x = 0) ∧
    (∀ x, L + W / 2 ≤ x → windowByte L W x = 255) ∧
    (∀ x y, x ≤ y → windowByte L W x ≤ windowByte L W y) := by
  have hfloor : ∀ x, 0 ≤ ⌊windowValue L W x⌋ ∧ ⌊windowValue L W x⌋ ≤ 255 := by
    intro x
    obtain ⟨hlb, hub⟩ := windowValue_bounds L W x hW
    constructor
    · exact_mod_cast Int.le_floor.mpr (by exact_mod_cast hlb)
    · have h2 := Int.floor_le_floor hub
      simpa using h2
  have hbyte : ∀ x, windowByte L W x = ⌊windowValue L W x⌋ := by
    intro x
    obtain ⟨hlb, hub⟩ := windowValue_bounds L W x hW
    unfold windowByte
    rw [ratTrunc_of_nonneg _ hlb]
    exact Int.emod_eq_of_lt (hfloor x).1 (by have := (hfloor x).2; omega)
  refine ⟨?_, ?_, ?_, ?_⟩
  · intro x
    rw [hbyte x]
    exact hfloor x
  · intro x hx
    rw [hbyte x, windowValue_low L W x hW hx]
    simp
  · intro x hx
    rw [hbyte x, windowValue_high L W x hW hx]
    norm_num
  · intro x y hxy
    rw [hbyte x, hbyte y]
    exact Int.floor_le_floor (windowValue_mono L W x y hW hxy)

/-- C5 witness at WL 40, WW 400, sampling both saturation regions, an
interior point and one monotonicity pair. -/
theorem windowing_spec_witness :
    (0 ≤ windowByte 40 400 100 ∧ windowByte 40 400 100 ≤ 255) ∧
    windowByte 40 400 (-300) = 0 ∧
    windowByte 40 400 300 = 255 ∧
    windowByte 40 400 0 ≤ windowByte 40 400 100 :=
  ⟨(windowing_spec 40 400 (by norm_num)).1 100,
   (windowing_spec 40 400 (by norm_num)).2.1 (-300) (by norm_num),
   (windowing_spec 40 400 (by norm_num)).2.2.1 300 (by norm_num),
   (windowing_spec 40 400 (by norm_num)).2.2.2 0 100 (by norm_num)⟩

/-! ## Volume building (C2, C3) -/

/-- A matrix whose rows all have the target width broadcasts to itself. -/
theorem broadcastRows_of_rect (cols : Nat) :
    ∀ (m : List (List ℚ)), (∀ row ∈ m, row.length = cols) →
      broadcastRows cols m = some m := by
  intro m
  induction m with
  | nil => intro _; rfl
  | cons r rs ih =>
    intro h
    have hr : r.length = cols := h r (List.mem_cons_self r rs)
    simp only [broadcastRows, broadcastRow, if_pos hr,
      ih (fun row hrow => h row (List.mem_cons_of_mem _ hrow))]

/-- A matrix of exactly the target shape broadcasts to itself. -/
theorem broadcastTo_of_rect (rows cols : Nat) (m : List (List ℚ))
    (hr : m.length = rows) (hc : ∀ row ∈ m, row.length = cols) :
    broadcastTo rows cols m = some m := by
  unfold broadcastTo
  rw [broadcastRows_of_rect cols m hc]
  simp [hr]

/-- `huMatrix` does not change the shape of the sample matrix. -/
theorem huMatrix_length (slope icpt : ℚ) (pix : List (List ℤ)) :
    (huMatrix slope icpt pix).length = pix.length := by
  simp [huMatrix]

/-- Every row of `huMatrix pix` is the image of a row of `pix` of the same
length. -/
theorem huMatrix_row_length (slope icpt : ℚ) (pix : List (List ℤ)) (c : Nat)
    (h : ∀ row ∈ pix, row.length = c) :
    ∀ row ∈ huMatrix slope icpt pix, row.length = c := by
  intro row hrow
  obtain ⟨r0, hr0, rfl⟩ := List.mem_map.mp hrow
  simpa using h r0 hr0

/-- When every image broadcasts exactly, the fill loop writes each image's
calibrated matrix in order and reports success. -/
theorem fillVolume_exact (rows cols : Nat) (slope icpt : ℚ) :
    ∀ (ds : List Dataset) (zs : List (List (List ℚ))),
      zs.length = ds.length →
      (∀ d ∈ ds, broadcastTo rows cols (huMatrix slope icpt d.pix)
        = some (huMatrix slope icpt d.pix)) →
      fillVolume rows cols slope icpt zs ds
        = (ds.map (fun d => huMatrix slope icpt d.pix), true) := by
  intro ds
  induction ds with
  | nil =>
    intro zs hlen _
    cases zs with
    | nil => rfl
    | cons z zs => simp at hlen
  | cons d ds ih =>
    intro zs hlen hbc
    cases zs with
    | nil => simp at hlen
    | cons z zs =>
      have hb := hbc d (List.mem_cons_self d ds)
      have htail := ih zs (by simpa using hlen)
        (fun d2 hd2 => hbc d2 (List.mem_cons_of_mem _ hd2))
      simp [fillVolume, hb, htail]

/-- If some image in the list fails to broadcast, the fill loop reports the
raised exception. -/
theorem fillVolume_fails (rows cols : Nat) (slope icpt : ℚ) :
    ∀ (ds : List Dataset) (zs : List (List (List ℚ))),
      zs.length = ds.length →
      (∃ d ∈ ds, broadcastTo rows cols (huMatrix slope icpt d.pix) = none) →
      (fillVolume rows cols slope icpt zs ds).2 = false := by
  intro ds
  induction ds with
  | nil =>
    intro zs _ h
    simp at h
  | cons d ds ih =>
    intro zs hlen hex
    cases zs with
    | nil => simp at hlen
    | cons z zs =>
      rcases hbd : broadcastTo rows cols (huMatrix slope icpt d.pix) with _ | m
      · simp [fillVolume, hbd]
      · obtain ⟨d2, hd2, hnone⟩ := hex
        rcases List.mem_cons.mp hd2 with rfl | hd2tail
        · rw [hbd] at hnone
          cases hnone
        · simp only [fillVolume, hbd]
          exact ih zs (by simpa using hlen) ⟨d2, hd2tail, hnone⟩

/-- `np.min` succeeds on a nonempty array. -/
theorem listMin_of_ne_nil (xs : List ℚ) (h : xs ≠ []) :
    ∃ v, listMin xs = some v := by
  cases xs with
  | nil => exact absurd rfl h
  | cons x xs => exact ⟨_, rfl⟩

/-- `np.max` succeeds on a nonempty array. -/
theorem listMax_of_ne_nil (xs : List ℚ) (h : xs ≠ []) :
    ∃ v, listMax xs = some v := by
  cases xs with
  | nil => exact absurd rfl h
  | cons x xs => exact ⟨_, rfl⟩

/-- C2 (amended): for an image sequence accepted by the builder in which
every raw matrix has exactly the first image's tagged shape, the build
succeeds and the Depth-plane (Axial) slice at every index `k` is the k-th
image's raw samples, converted to int16, transformed with the FIRST image's
calibration pair `raw * slope_0 + intercept_0` — one series-wide pair taken
from the first image of the resolved order, not each image's own pair. -/
theorem depth_slice_first_image_calibration (st : LoaderState)
    (ds0 : Dataset) (rest : List Dataset)
    (hshape : ∀ d ∈ ds0 :: rest,
      d.pix.length = ds0.rowsTag ∧ ∀ row ∈ d.pix, row.length = ds0.colsTag)
    (hr : 1 ≤ ds0.rowsTag) (hc : 1 ≤ ds0.colsTag) :
    (process_data st (ds0 :: rest)).2 = true ∧
    (process_data st (ds0 :: rest)).1.is_loaded = true ∧
    ∀ k, get_slice_data (process_data st (ds0 :: rest)).1 "Axial" k
      = ((ds0 :: rest).map
          (fun d => huMatrix ds0.rescaleSlope ds0.rescaleIntercept d.pix))[k]? := by
  have hbc : ∀ d ∈ ds0 :: rest,
      broadcastTo ds0.rowsTag ds0.colsTag
        (huMatrix ds0.rescaleSlope ds0.rescaleIntercept d.pix)
      = some (huMatrix ds0.rescaleSlope ds0.rescaleIntercept d.pix) := by
    intro d hd
    obtain ⟨h1, h2⟩ := hshape d hd
    exact broadcastTo_of_rect _ _ _ (by rw [huMatrix_length, h1])
      (huMatrix_row_length _ _ _ _ h2)
  have hfill := fillVolume_exact ds0.rowsTag ds0.colsTag
    ds0.rescaleSlope ds0.rescaleIntercept (ds0 :: rest)
    (List.replicate (ds0 :: rest).length
      (List.replicate ds0.rowsTag (List.replicate ds0.colsTag (0 : ℚ))))
    (by simp) hbc
  have hne : ((ds0 :: rest).map
      (fun d => (huMatrix ds0.rescaleSlope ds0.rescaleIntercept d.pix).flatten)).flatten
      ≠ [] := by
    obtain ⟨h1, h2⟩ := hshape ds0 (List.mem_cons_self ds0 rest)
    intro hcon
    rw [List.map_cons, List.flatten_cons, List.append_eq_nil] at hcon
    rcases hp : ds0.pix with _ | ⟨r, t⟩
    · rw [hp] at h1
      simp at h1
      omega
    · have hcol : r.length = ds0.colsTag := h2 r (by rw [hp]; exact List.mem_cons_self r t)
      have ha := hcon.1
      rw [hp] at ha
      simp [huMatrix, List.append_eq_nil] at ha
      rw [ha.1] at hcol
      simp at hcol
      omega
  obtain ⟨mn, hmn⟩ := listMin_of_ne_nil _ hne
  obtain ⟨mx, hmx⟩ := listMax_of_ne_nil _ hne
  simp only [process_data, hfill, hmn, hmx]
  refine ⟨rfl, rfl, ?_⟩
  intro k
  simp [get_slice_data]

/-- Evaluation helper: on a folder whose glob and sort both come back
nonempty, `load_series` is the reported outcome of `_process_data` on the
freshly reset state. -/
theorem load_series_eval (st : LoaderState) (files : List (Option Dataset))
    (hne : files ≠ []) (hsne : sort_dicom_series files ≠ []) :
    load_series st files =
      (if (process_data initLoader (sort_dicom_series files)).2 = false
       then ((process_data initLoader (sort_dicom_series files)).1, false)
       else if (process_data initLoader (sort_dicom_series files)).1.is_loaded
       then ((process_data initLoader (sort_dicom_series files)).1, true)
       else ((process_data initLoader (sort_dicom_series files)).1, false)) := by
  simp only [load_series]
  rw [if_neg hne, if_neg hsne]
  rfl

/-- C2 witness: the one-image series built from `exDataset`. -/
theorem depth_slice_first_image_calibration_witness :
    (process_data initLoader [exDataset]).2 = true ∧
    (process_data initLoader [exDataset]).1.is_loaded = true ∧
    get_slice_data (process_data initLoader [exDataset]).1 "Axial" 0
      = ([exDataset].map
          (fun d => huMatrix exDataset.rescaleSlope exDataset.rescaleIntercept d.pix))[0]? :=
  ⟨(depth_slice_first_image_calibration initLoader exDataset [] (by decide)
      (by decide) (by decide)).1,
   (depth_slice_first_image_calibration initLoader exDataset [] (by decide)
      (by decide) (by decide)).2.1,
   (depth_slice_first_image_calibration initLoader exDataset [] (by decide)
      (by decide) (by decide)).2.2 0⟩

/-- C2 counterexample: loading the two-image series `[exDataset, cex2b]`
(raw sample 5 in both, second image's own slope 2), the Depth-plane reslice
at k = 1 is `[[5]]` — raw * slope_0 + intercept_0 with the FIRST image's
pair — and not `[[10]]`, the value under the second image's own pair as the
claim requires. -/
theorem per_image_calibration_counterexample :
    (load_series initLoader [some exDataset, some cex2b]).1.is_loaded = true ∧
    get_slice_data (load_series initLoader [some exDataset, some cex2b]).1
      "Axial" 1 = some [[5]] ∧
    huMatrix cex2b.rescaleSlope cex2b.rescaleIntercept cex2b.pix = [[10]] ∧
    get_slice_data (load_series initLoader [some exDataset, some cex2b]).1
      "Axial" 1
      ≠ some (huMatrix cex2b.rescaleSlope cex2b.rescaleIntercept cex2b.pix) := by
  rw [load_series_eval initLoader [some exDataset, some cex2b]
    (by decide) (by decide)]
  have hsort : sort_dicom_series [some exDataset, some cex2b]
      = [exDataset, cex2b] := by rfl
  rw [hsort]
  norm_num [process_data, fillVolume, broadcastTo, broadcastRows,
    broadcastRow, huMatrix, wrap16, listMin, listMax, exDataset, cex2b,
    initLoader, get_slice_data]

/-- C3 (amended): if some image's matrix cannot be numpy-broadcast to the
first image's tagged `(Rows, Columns)` shape — its row count differs from
the first image's and from 1, or its column count differs from the first
image's and from 1 — then the build fails: the error flag is reported, the
loader does not report success, and no volume (in particular no partial
volume) is observable through `get_slice_data`.  (A mismatched image whose
differing dimension equals 1 is instead silently broadcast; see the
counterexample.) -/
theorem heterogeneous_shape_aborts (st : LoaderState)
    (ds0 : Dataset) (rest : List Dataset)
    (hbad : ∃ d ∈ ds0 :: rest,
      broadcastTo ds0.rowsTag ds0.colsTag
        (huMatrix ds0.rescaleSlope ds0.rescaleIntercept d.pix) = none) :
    (process_data st (ds0 :: rest)).2 = false ∧
    (process_data st (ds0 :: rest)).1.is_loaded = false ∧
    ∀ p i, get_slice_data (process_data st (ds0 :: rest)).1 p i = none := by
  have hfail := fillVolume_fails ds0.rowsTag ds0.colsTag
    ds0.rescaleSlope ds0.rescaleIntercept (ds0 :: rest)
    (List.replicate (ds0 :: rest).length
      (List.replicate ds0.rowsTag (List.replicate ds0.colsTag (0 : ℚ))))
    (by simp) hbad
  simp only [process_data, hfail]
  refine ⟨rfl, rfl, ?_⟩
  intro p i
  simp [get_slice_data]

/-- C3 witness: the genuinely non-broadcastable series `[cex3a, cex3bad]`
aborts with the failure flag and exposes no volume. -/
theorem heterogeneous_shape_aborts_witness :
    (process_data initLoader [cex3a, cex3bad]).2 = false ∧
    (process_data initLoader [cex3a, cex3bad]).1.is_loaded = false ∧
    get_slice_data (process_data initLoader [cex3a, cex3bad]).1 "Axial" 0 = none :=
  ⟨(heterogeneous_shape_aborts initLoader cex3a [cex3bad] (by decide)).1,
   (heterogeneous_shape_aborts initLoader cex3a [cex3bad] (by decide)).2.1,
   (heterogeneous_shape_aborts initLoader cex3a [cex3bad] (by decide)).2.2 "Axial" 0⟩

/-- C3 counterexample: loading `[cex3a, cex3b]`, whose second image has a
different row count (1 vs 2), does NOT fail: numpy silently broadcasts the
single row across the 2×2 slice and the loader reports success. -/
theorem heterogeneous_geometry_accepted_counterexample :
    cex3a.pix.length = 2 ∧ cex3b.pix.length = 1 ∧
    (load_series initLoader [some cex3a, some cex3b]).2 = true ∧
    (load_series initLoader [some cex3a, some cex3b]).1.is_loaded = true ∧
    get_slice_data (load_series initLoader [some cex3a, some cex3b]).1
      "Axial" 1 = some [[9, 9], [9, 9]] := by
  rw [load_series_eval initLoader [some cex3a, some cex3b]
    (by decide) (by decide)]
  have hsort : sort_dicom_series [some cex3a, some cex3b]
      = [cex3a, cex3b] := by rfl
  rw [hsort]
  norm_num [process_data, fillVolume, broadcastTo, broadcastRows,
    broadcastRow, huMatrix, wrap16, listMin, listMax, exDataset, cex3a, cex3b,
    initLoader, get_slice_data, List.replicate]

/-! ## Series resolver (C4) -/

/-- Membership in the first-seen list: exactly the values of the input not
already seen. -/
theorem firstSeenAux_mem : ∀ (l seen : List (Option Nat)) (x : Option Nat),
    x ∈ firstSeenAux seen l ↔ (x ∈ l ∧ x ∉ seen) := by
  intro l
  induction l with
  | nil => intro seen x; simp [firstSeenAux]
  | cons y ys ih =>
    intro seen x
    by_cases hy : y ∈ seen
    · rw [firstSeenAux, if_pos hy, ih]
      constructor
      · rintro ⟨h1, h2⟩
        exact ⟨List.mem_cons_of_mem _ h1, h2⟩
      · rintro ⟨h1, h2⟩
        rcases List.mem_cons.mp h1 with rfl | h1
        · exact absurd hy h2
        · exact ⟨h1, h2⟩
    · rw [firstSeenAux, if_neg hy]
      constructor
      · intro hmem
        rcases List.mem_cons.mp hmem with rfl | hmem
        · exact ⟨List.mem_cons_self _ _, hy⟩
        · obtain ⟨h1, h2⟩ := (ih (y :: seen) x).mp hmem
          refine ⟨List.mem_cons_of_mem _ h1, ?_⟩
          intro hx
          exact h2 (List.mem_cons_of_mem _ hx)
      · rintro ⟨h1, h2⟩
        rcases List.mem_cons.mp h1 with rfl | h1
        · exact List.mem_cons_self _ _
        · by_cases hxy : x = y
          · subst hxy
            exact List.mem_cons_self _ _
          · exact List.mem_cons_of_mem _
              ((ih (y :: seen) x).mpr ⟨h1, by simp [hxy, h2]⟩)

/-- Appending one value to the scan appends it to the first-seen list
exactly when it is new. -/
theorem firstSeenAux_append : ∀ (l seen : List (Option Nat)) (x : Option Nat),
    firstSeenAux seen (l ++ [x])
      = firstSeenAux seen l ++ (if x ∈ seen ∨ x ∈ l then [] else [x]) := by
  intro l
  induction l with
  | nil =>
    intro seen x
    by_cases hx : x ∈ seen <;> simp [firstSeenAux, hx]
  | cons y ys ih =>
    intro seen x
    by_cases hy : y ∈ seen
    · rw [List.cons_append, firstSeenAux, if_pos hy, ih, firstSeenAux, if_pos hy]
      congr 1
      by_cases hxy : x = y
      · subst hxy
        simp [hy]
      · simp [hxy]
    · rw [List.cons_append, firstSeenAux, if_neg hy, ih, firstSeenAux, if_neg hy]
      rw [List.cons_append]
      congr 1
      by_cases hxy : x = y
      · subst hxy
        simp [hy, List.mem_cons]
      · simp only [List.mem_cons, hxy, false_or]

/-- The first-seen list has no duplicates. -/
theorem firstSeenAux_nodup : ∀ (l seen : List (Option Nat)),
    (firstSeenAux seen l).Nodup := by
  intro l
  induction l with
  | nil => intro seen; simp [firstSeenAux]
  | cons y ys ih =>
    intro seen
    by_cases hy : y ∈ seen
    · rw [firstSeenAux, if_pos hy]
      exact ih seen
    · rw [firstSeenAux, if_neg hy]
      refine List.Nodup.cons ?_ (ih (y :: seen))
      intro hmem
      exact ((firstSeenAux_mem ys (y :: seen) y).mp hmem).2 (List.mem_cons_self _ _)

/-- `addToMap` on an association list with distinct keys: update the
matching entry in place, or append a fresh entry. -/
theorem addToMap_map (d : Dataset) :
    ∀ (ks : List (Option Nat)) (g : Option Nat → List Dataset), ks.Nodup →
      addToMap (ks.map (fun u => (u, g u))) d
        = if d.seriesUID ∈ ks
          then ks.map (fun u =>
            (u, if u = d.seriesUID then g u ++ [d] else g u))
          else ks.map (fun u => (u, g u)) ++ [(d.seriesUID, [d])] := by
  intro ks
  induction ks with
  | nil =>
    intro g _
    simp [addToMap]
  | cons k ks ih =>
    intro g hnd
    obtain ⟨hk, hnd2⟩ := List.nodup_cons.mp hnd
    by_cases hkd : k = d.seriesUID
    · subst hkd
      rw [List.map_cons, addToMap, if_pos rfl, if_pos (List.mem_cons_self _ _)]
      rw [List.map_cons, if_pos rfl]
      congr 1
      apply List.map_congr_left
      intro u hu
      have hune : u ≠ d.seriesUID := fun h => hk (h ▸ hu)
      rw [if_neg hune]
    · rw [List.map_cons, addToMap, if_neg hkd, ih g hnd2]
      by_cases hmem : d.seriesUID ∈ ks
      · rw [if_pos hmem, if_pos (List.mem_cons_of_mem _ hmem)]
        rw [List.map_cons, if_neg hkd]
      · have hne2 : d.seriesUID ∉ k :: ks := by
          rw [List.mem_cons]
          push_neg
          exact ⟨fun h => hkd h.symm, hmem⟩
        rw [if_neg hmem, if_neg hne2]
        rfl

/-- The members of partition `u` after appending `d`: unchanged unless `d`
belongs to `u`. -/
theorem candidatesOf_append (u : Option Nat) (l : List Dataset) (d : Dataset) :
    candidatesOf u (l ++ [d])
      = candidatesOf u l ++ (if d.seriesUID = u then [d] else []) := by
  unfold candidatesOf
  rw [List.filter_append]
  congr 1
  by_cases h : d.seriesUID = u <;> simp [h]

/-- One dict-building iteration corresponds to appending the dataset to the
grouped view. -/
theorem addToMap_groupOf (l : List Dataset) (d : Dataset) :
    addToMap (groupOf l) d = groupOf (l ++ [d]) := by
  unfold groupOf firstSeen
  rw [addToMap_map d _ _ (firstSeenAux_nodup _ _)]
  have hmemks : (d.seriesUID ∈ firstSeenAux [] (l.map (fun d => d.seriesUID)))
      ↔ d.seriesUID ∈ l.map (fun d => d.seriesUID) := by
    rw [firstSeenAux_mem]
    simp
  rw [List.map_append, List.map_cons, List.map_nil, firstSeenAux_append]
  simp only [List.not_mem_nil, false_or]
  by_cases hmem : d.seriesUID ∈ l.map (fun d => d.seriesUID)
  · rw [if_pos (hmemks.mpr hmem), if_pos hmem, List.append_nil]
    apply List.map_congr_left
    intro u hu
    rw [candidatesOf_append]
    by_cases hud : u = d.seriesUID
    · subst hud
      rw [if_pos rfl, if_pos rfl]
    · rw [if_neg hud, if_neg (fun h => hud h.symm), List.append_nil]
  · rw [if_neg (fun h => hmem (hmemks.mp h)), if_neg hmem]
    rw [List.map_append, List.map_cons, List.map_nil]
    have hcandnil : candidatesOf d.seriesUID l = [] := by
      unfold candidatesOf
      rw [List.filter_eq_nil_iff]
      intro a ha
      simp only [decide_eq_true_eq]
      intro hcon
      exact hmem (List.mem_map.mpr ⟨a, ha, hcon⟩)
    have hcand : candidatesOf d.seriesUID (l ++ [d]) = [d] := by
      rw [candidatesOf_append, if_pos rfl, hcandnil, List.nil_append]
    rw [hcand]
    congr 1
    apply List.map_congr_left
    intro u hu
    rw [candidatesOf_append]
    have hud : d.seriesUID ≠ u := by
      intro h
      have hu2 : u ∈ l.map (fun d => d.seriesUID) :=
        ((firstSeenAux_mem _ _ _).mp hu).1
      exact hmem (by rw [h]; exact hu2)
    rw [if_neg hud, List.append_nil]

/-- The dict built by the reader loop is exactly the specification's
partition-by-identity view. -/
theorem seriesMap_eq_groupOf (l : List Dataset) :
    seriesMap l = groupOf l := by
  induction l using List.reverseRecOn with
  | nil => rfl
  | append_singleton l d ih =>
    unfold seriesMap
    rw [List.foldl_append]
    have : List.foldl addToMap [] l = seriesMap l := rfl
    rw [this, ih]
    simp only [List.foldl_cons, List.foldl_nil]
    exact addToMap_groupOf l d

/-- Membership under stable insertion. -/
theorem insertZ_mem (x a : Dataset) :
    ∀ l : List Dataset, a ∈ insertZ x l ↔ a = x ∨ a ∈ l := by
  intro l
  induction l with
  | nil => simp [insertZ]
  | cons y ys ih =>
    by_cases h : y.zPos ≤ x.zPos
    · rw [insertZ, if_pos h]
      rw [List.mem_cons, ih, List.mem_cons]
      tauto
    · rw [insertZ, if_neg h]
      rw [List.mem_cons, List.mem_cons]

/-- Stable insertion preserves sortedness by depth position. -/
theorem insertZ_pairwise (x : Dataset) :
    ∀ l : List Dataset, l.Pairwise (fun a b => a.zPos ≤ b.zPos) →
      (insertZ x l).Pairwise (fun a b => a.zPos ≤ b.zPos) := by
  intro l
  induction l with
  | nil => intro _; simp [insertZ]
  | cons y ys ih =>
    intro h
    obtain ⟨hy, hys⟩ := List.pairwise_cons.mp h
    by_cases hle : y.zPos ≤ x.zPos
    · rw [insertZ, if_pos hle]
      rw [List.pairwise_cons]
      refine ⟨?_, ih hys⟩
      intro b hb
      rcases (insertZ_mem x b ys).mp hb with rfl | hb
      · exact hle
      · exact hy b hb
    · rw [insertZ, if_neg hle]
      rw [List.pairwise_cons]
      refine ⟨?_, h⟩
      intro b hb
      rcases List.mem_cons.mp hb with rfl | hb
      · exact le_of_not_le hle
      · exact le_trans (le_of_not_le hle) (hy b hb)

/-- The stable sort returns a sorted list. -/
theorem sortByZ_pairwise (l : List Dataset) :
    (sortByZ l).Pairwise (fun a b => a.zPos ≤ b.zPos) := by
  unfold sortByZ
  suffices h : ∀ acc : List Dataset,
      acc.Pairwise (fun a b => a.zPos ≤ b.zPos) →
      (List.foldl (fun acc x => insertZ x acc) acc l).Pairwise
        (fun a b => a.zPos ≤ b.zPos) by
    exact h [] (by simp)
  induction l with
  | nil => intro acc hacc; exact hacc
  | cons x xs ih =>
    intro acc hacc
    rw [List.foldl_cons]
    exact ih (insertZ x acc) (insertZ_pairwise x acc hacc)

/-- Inserting an element with the key `q` appends it after the existing
elements with key `q`, provided the list is sorted. -/
theorem insertZ_filter_eq (x : Dataset) (q : ℚ) (hq : x.zPos = q) :
    ∀ l : List Dataset, l.Pairwise (fun a b => a.zPos ≤ b.zPos) →
      (insertZ x l).filter (fun d => decide (d.zPos = q))
        = l.filter (fun d => decide (d.zPos = q)) ++ [x] := by
  intro l
  induction l with
  | nil => simp [insertZ, hq]
  | cons y ys ih =>
    intro hs
    obtain ⟨hy, hys⟩ := List.pairwise_cons.mp hs
    by_cases hle : y.zPos ≤ x.zPos
    · rw [insertZ, if_pos hle]
      rw [List.filter_cons, List.filter_cons]
      split
      · rw [List.cons_append]
        congr 1
        exact ih hys
      · exact ih hys
    · rw [insertZ, if_neg hle]
      have hxq : x.zPos < y.zPos := lt_of_not_le hle
      have hfil : (y :: ys).filter (fun d => decide (d.zPos = q)) = [] := by
        rw [List.filter_eq_nil_iff]
        intro a ha
        simp only [decide_eq_true_eq]
        intro haq
        rcases List.mem_cons.mp ha with rfl | ha
        · rw [haq] at hxq
          rw [hq] at hxq
          exact lt_irrefl q hxq
        · have := hy a ha
          rw [haq] at this
          rw [hq] at hxq
          have h2 := lt_of_lt_of_le hxq this
          exact lt_irrefl q h2
      rw [List.filter_cons]
      split
      · rw [hfil]
        rfl
      · rename_i hcond
        simp only [decide_eq_true_eq] at hcond
        exact absurd hq hcond

/-- Inserting an element with a different key leaves the key's subsequence
unchanged. -/
theorem insertZ_filter_ne (x : Dataset) (q : ℚ) (hq : x.zPos ≠ q) :
    ∀ l : List Dataset,
      (insertZ x l).filter (fun d => decide (d.zPos = q))
        = l.filter (fun d => decide (d.zPos = q)) := by
  intro l
  induction l with
  | nil => simp [insertZ, hq]
  | cons y ys ih =>
    by_cases hle : y.zPos ≤ x.zPos
    · rw [insertZ, if_pos hle]
      rw [List.filter_cons, List.filter_cons]
      split
      · rw [ih]
      · exact ih
    · rw [insertZ, if_neg hle]
      rw [List.filter_cons]
      split
      · rename_i hcond
        simp only [decide_eq_true_eq] at hcond
        exact absurd hcond hq
      · rfl

/-- Stability of the sort: for every depth position `q`, the subsequence of
elements at `q` is exactly the input's subsequence at `q` (same elements,
same relative order). -/
theorem sortByZ_filter (l : List Dataset) (q : ℚ) :
    (sortByZ l).filter (fun d => decide (d.zPos = q))
      = l.filter (fun d => decide (d.zPos = q)) := by
  unfold sortByZ
  suffices h : ∀ acc : List Dataset,
      acc.Pairwise (fun a b => a.zPos ≤ b.zPos) →
      (List.foldl (fun acc x => insertZ x acc) acc l).filter
          (fun d => decide (d.zPos = q))
        = acc.filter (fun d => decide (d.zPos = q))
          ++ l.filter (fun d => decide (d.zPos = q)) by
    simpa using h [] (by simp)
  induction l with
  | nil =>
    intro acc _
    simp
  | cons x xs ih =>
    intro acc hacc
    rw [List.foldl_cons, ih (insertZ x acc) (insertZ_pairwise x acc hacc),
      List.filter_cons]
    by_cases hxq : x.zPos = q
    · rw [insertZ_filter_eq x q hxq acc hacc]
      simp [hxq, List.append_assoc]
    · rw [insertZ_filter_ne x q hxq acc]
      simp [hxq]

/-- Python's `max(series_map, key=...)` over the mapped key list equals the
first argmax over the keys themselves. -/
theorem foldl_best_map (g : Option Nat → List Dataset) :
    ∀ (ks : List (Option Nat)) (b : Option Nat),
      List.foldl (fun best x => if x.2.length > best.2.length then x else best)
        (b, g b) (ks.map (fun u => (u, g u)))
      = (List.foldl
          (fun best u => if (g u).length > (g best).length then u else best)
          b ks,
         g (List.foldl
          (fun best u => if (g u).length > (g best).length then u else best)
          b ks)) := by
  intro ks
  induction ks with
  | nil => intro b; rfl
  | cons u us ih =>
    intro b
    rw [List.map_cons, List.foldl_cons, List.foldl_cons]
    have hpush : (if (u, g u).2.length > (b, g b).2.length then (u, g u) else (b, g b))
        = ((if (g u).length > (g b).length then u else b),
           g (if (g u).length > (g b).length then u else b)) := by
      by_cases hc : (g u).length > (g b).length
      · simp [hc]
      · simp [hc]
    rw [hpush, ih]

/-- C4: for every folder with at least one usable candidate image, the
resolver partitions the candidates by series identity, selects the
partition named by `specMainUID` — the first-seen identity of maximal
member count — and returns exactly that partition's members stably sorted
by ascending depth position: the output is sorted by `zPos`, and for every
position `q` the subsequence of output elements at `q` equals the
partition's subsequence at `q` (same members in encountered order). -/
theorem series_resolver_spec (files : List (Option Dataset))
    (hne : usableOf files ≠ []) (mu : Option Nat)
    (hmu : specMainUID (usableOf files) = some mu) :
    sort_dicom_series files
      = sortByZ (candidatesOf mu (usableOf files)) ∧
    (sort_dicom_series files).Pairwise (fun a b => a.zPos ≤ b.zPos) ∧
    (∀ q : ℚ,
      (sort_dicom_series files).filter (fun d => decide (d.zPos = q))
        = (candidatesOf mu (usableOf files)).filter
            (fun d => decide (d.zPos = q))) := by
  obtain ⟨k0, krest, hksl⟩ :
      ∃ k0 krest, firstSeen ((usableOf files).map (fun d => d.seriesUID))
        = k0 :: krest := by
    rcases hm : (usableOf files).map (fun d => d.seriesUID) with _ | ⟨u, us⟩
    · exact absurd (List.map_eq_nil_iff.mp hm) hne
    · refine ⟨u, firstSeenAux [u] us, ?_⟩
      rw [firstSeen, hm, firstSeenAux, if_neg (List.not_mem_nil u)]
  have hsm : seriesMap (usableOf files)
      = (k0, candidatesOf k0 (usableOf files))
        :: krest.map (fun u => (u, candidatesOf u (usableOf files))) := by
    rw [seriesMap_eq_groupOf, groupOf, hksl, List.map_cons]
  simp only [specMainUID, hksl, argmaxFirst, countOf] at hmu
  have hr : List.foldl
      (fun best u =>
        if (candidatesOf u (usableOf files)).length
            > (candidatesOf best (usableOf files)).length
        then u else best) k0 krest = mu := Option.some.inj hmu
  have hsort : sort_dicom_series files
      = sortByZ (candidatesOf mu (usableOf files)) := by
    unfold sort_dicom_series
    rw [hsm]
    simp only []
    rw [foldl_best_map (fun u => candidatesOf u (usableOf files)) krest k0]
    rw [hr]
  refine ⟨hsort, ?_, ?_⟩
  · rw [hsort]
    exact sortByZ_pairwise _
  · intro q
    rw [hsort]
    exact sortByZ_filter _ q

/-- C4 witness: the spec's scenario — three images, series "A" (2 members)
and "B" (1 member); the resolver selects "A" and orders by ascending depth
position. -/
theorem series_resolver_spec_witness :
    (sort_dicom_series [some exA1, some exB1, some exA2]
      = sortByZ (candidatesOf (some 10)
          (usableOf [some exA1, some exB1, some exA2]))) ∧
    (sort_dicom_series [some exA1, some exB1, some exA2]).Pairwise
      (fun a b => a.zPos ≤ b.zPos) ∧
    (sort_dicom_series [some exA1, some exB1, some exA2]).filter
        (fun d => decide (d.zPos = 3))
      = (candidatesOf (some 10)
          (usableOf [some exA1, some exB1, some exA2])).filter
          (fun d => decide (d.zPos = 3)) :=
  ⟨(series_resolver_spec [some exA1, some exB1, some exA2]
      (by decide) (some 10) (by decide)).1,
   (series_resolver_spec [some exA1, some exB1, some exA2]
      (by decide) (some 10) (by decide)).2.1,
   (series_resolver_spec [some exA1, some exB1, some exA2]
      (by decide) (some 10) (by decide)).2.2 3⟩
